import Mathlib

/-!
Shallow embedding of `warthog::memory::data_column`
(src/include/warthog/memory/data_table.h).

A cell (`data_type`) is an 8-byte union of overlays (`i : int64`,
`f : double`, `s.ptr : const char*`, `s.sso : char[8]`).  We model the
cell as the natural number below `2^64` given by its eight bytes in
little-endian order (the source's `if constexpr` endian dispatch is
modelled on its little-endian branch, which is the one whose layout the
spec's scenarios describe).  The overlays become functions of that number:
`i` is its two's-complement reading, `s.ptr` is the raw 64-bit address
(null pointer ⟺ the word is zero), `s.sso[j]` is byte `j`, and `f` is
kept as its raw bit pattern (the only FLOAT operations in the source are
bit-level: `from_float` stores a constant and `is_float_null` compares
with `std::numeric_limits<double>::lowest()`, whose comparison succeeds
exactly on that one bit pattern, since `lowest` is finite and nonzero).

Out-of-line string memory is modelled as a byte-addressed function
`mem : Nat → Nat`; `std::memcpy` of the `size_t` length word becomes a
little-endian 8-byte read.

The column (`data_column`) is a record of `m_data` (a list of cells whose
length is `m_reserved`), `m_size`, `m_reserved`, and a flag recording
whether `m_data` is still the null pointer.  `alloc_` returns
uninitialised storage, so every operation that allocates takes the fresh
buffer's (arbitrary) contents as an explicit parameter `g`; theorems
quantify over it.  Undefined behaviour (a negative shift amount in
`auto_reserve_`, or `std::fill` running past the allocated buffer in
`resize`) is modelled by returning `none`.
-/

namespace Warthog

/-- Byte `j` of a cell, i.e. `value.s.sso[j]` on a little-endian machine. -/
def byte : Nat → Nat → Nat
  | 0, c => c % 256
  | j+1, c => byte j (c / 256)

/-- The `sso_mask` constant `0b111`. -/
def ssoMask : Nat := 7

/-- The two's-complement reading of the cell: overlay `value.i`. -/
def cellInt (c : Nat) : Int := if c < 2^63 then (c : Int) else (c : Int) - 2^64

/-- Model of `std::numeric_limits<int64_t>::min()`. -/
def int64Min : Int := -(2^63)

/-- Store an `int64` into a cell (the write through overlay `value.i`). -/
def intToCell (v : Int) : Nat := (v % 2^64).toNat

/-- Bit pattern of `std::numeric_limits<double>::lowest()`, i.e. of
`-DBL_MAX`: sign 1, exponent `0x7FE`, mantissa all ones. -/
def floatLowestBits : Nat := 0xFFEFFFFFFFFFFFFF

/-- Model of `data_column::type`. -/
inductive Kind
  | STRING
  | INT
  | FLOAT
deriving DecidableEq

/-- Model of `data_column::variant_type`:
`std::variant<std::nullptr_t, int64_t, double, std::string_view>`.
A `double` alternative is carried as its bit pattern; a `string_view`
as the list of viewed bytes. -/
inductive Variant
  | null
  | int (v : Int)
  | floatBits (bits : Nat)
  | str (bytes : List Nat)
deriving DecidableEq

/-- Model of `data_column::is_int_null`: `value.i == int64_min`. -/
def is_int_null (c : Nat) : Bool := cellInt c == int64Min

/-- Model of `data_column::is_float_null`: `value.f == lowest`.  `lowest` is finite
and nonzero, so the IEEE comparison holds exactly when the bit patterns
coincide. -/
def is_float_null (c : Nat) : Bool := c == floatLowestBits

/-- Model of `data_column::is_string_null`: `value.s.ptr == nullptr`, i.e. the
8-byte word is zero. -/
def is_string_null (c : Nat) : Bool := c == 0

/-- Model of `data_column::null_value`: `value_type{ .s.ptr = nullptr }`, the
all-zero cell. -/
def null_value : Nat := 0

/-- Model of `data_column::from_int`: store the given value, or `int64_min` when
absent. -/
def from_int (v : Option Int) : Nat := intToCell (v.getD int64Min)

/-- Little-endian composition of the SSO payload bytes: byte `1+j` of the
resulting cell is entry `j` of the list. -/
def ssoBody : List Nat → Nat
  | [] => 0
  | b :: t => b + 256 * ssoBody t

/-- Model of `data_column::try_from_string` (little-endian branch): empty or
longer-than-6 inputs give the null cell; otherwise byte 0 is the length
and bytes `1..len` hold the characters, the rest staying zero. -/
def try_from_string (s : List Nat) : Nat :=
  if s.length = 0 ∨ 6 < s.length then null_value
  else s.length + 256 * ssoBody s

/-- Model of `data_column::try_from_char_`: wrap the caller's pointer (an address,
possibly 0 for `nullptr`). -/
def try_from_char (p : Nat) : Nat := p

/-- The `std::memcpy` of the `size_t` length word at address `a`:
little-endian 8-byte read from `mem`. -/
def readWord (mem : Nat → Nat) (a : Nat) : Nat :=
  mem a + 256 * (mem (a+1) + 256 * (mem (a+2) + 256 * (mem (a+3) +
    256 * (mem (a+4) + 256 * (mem (a+5) + 256 * (mem (a+6) + 256 * mem (a+7)))))))

/-- Model of `data_column::get_string_ptr` (little-endian branch).  If the low three
bits of byte 0 are set the view is the inline bytes `1..sso[0]`; else a
null pointer yields the empty view; else the length word right before the
pointee gives the view `(ptr, length)`. -/
def get_string_ptr (mem : Nat → Nat) (c : Nat) : List Nat :=
  if byte 0 c &&& ssoMask ≠ 0 then
    (List.range (byte 0 c)).map (fun j => byte (j+1) c)
  else if c = 0 then
    []
  else
    (List.range (readWord mem (c - 8))).map (fun j => mem (c + j))

/-- Model of `data_column::to_varient`: dispatch on the kind, null-test, project. -/
def to_varient (mem : Nat → Nat) (c : Nat) (t : Kind) : Variant :=
  match t with
  | .STRING => if is_string_null c then .null else .str (get_string_ptr mem c)
  | .INT => if is_int_null c then .null else .int (cellInt c)
  | .FLOAT => if is_float_null c then .null else .floatBits c

/-- An all-zero external memory, used to instantiate `mem` in closed
statements. -/
def memZero : Nat → Nat := fun _ => 0

/-- The mutable part of a `data_column`: `m_data` (the allocated buffer,
one list entry per reserved cell), `m_size`, `m_reserved`, and whether
`m_data` is still the null pointer (fresh column, nothing allocated). -/
structure Col where
  dataNull : Bool
  data : List Nat
  msize : Nat
  mreserved : Nat
deriving DecidableEq

/-- Well-formedness maintained by the source: `m_size ≤ m_reserved` and
the buffer holds exactly `m_reserved` cells. -/
def Col.WF (c : Col) : Prop := c.msize ≤ c.mreserved ∧ c.data.length = c.mreserved

/-- A default-constructed `data_column`. -/
def emptyCol : Col := ⟨true, [], 0, 0⟩

/-- Model of `data_column::reserve_` with the fresh buffer's contents `g` (uninitialised
storage from `alloc_`, of length `count`): when `count > m_reserved`,
`copy_n(old_data, m_size, new_data)` makes the new buffer the first
`m_size` old cells followed by the untouched tail of `g`; `m_data` is
no longer null and `m_reserved` becomes `count`. -/
def reserveAux (g : List Nat) (count : Nat) (c : Col) : Col :=
  if c.mreserved < count then
    ⟨false, c.data.take c.msize ++ g.drop c.msize, c.msize, count⟩
  else c

/-- The `count` arguments of the `dealloc_` calls `reserve_` performs
(one call, with the old `m_reserved`, exactly when it grows). -/
def reserveDeallocCounts (count : Nat) (c : Col) : List Nat :=
  if c.mreserved < count then [c.mreserved] else []

/-- The `(pointer-is-null, count)` pairs of the `dealloc_` calls `reserve_`
performs; the pointer passed is the old `m_data`. -/
def reserveDeallocCalls (count : Nat) (c : Col) : List (Bool × Nat) :=
  if c.mreserved < count then [(c.dataNull, c.mreserved)] else []

/-- The `count` arguments of the `dealloc_` calls at destruction:
`~data_column` deallocates `m_reserved` cells iff `m_data != nullptr`. -/
def destructorDeallocCounts (c : Col) : List Nat :=
  if c.dataNull then [] else [c.mreserved]

/-- Model of `std::bit_width` on a 32-bit count, via a fuel-structured loop (the
fuel `n` itself always suffices, as the argument at least halves each
step). -/
def bwGo : Nat → Nat → Nat
  | _, 0 => 0
  | 0, _+1 => 1
  | fuel+1, n+1 => bwGo fuel ((n+1) / 2) + 1

/-- Model of `std::bit_width n`: the number of bits needed to represent `n`. -/
def bitWidth (n : Nat) : Nat := bwGo n n

/-- Model of `data_column::auto_reserve_`: when `count > m_reserved` compute
`shift = std::min(std::bit_width(count) - 2, 3)` in `int` arithmetic and
reserve `m_reserved + (size_type{1} << shift)` (a `uint32_t` sum).  When
`bit_width(count) < 2` the shift amount is negative, which is undefined
behaviour for `<<`: modelled as `none`. -/
def autoReserveAux (g : List Nat) (count : Nat) (c : Col) : Option Col :=
  if c.mreserved < count then
    if bitWidth count < 2 then none
    else some (reserveAux g ((c.mreserved + 2 ^ min (bitWidth count - 2) 3) % 2^32) c)
  else some c

/-- Model of `data_column::resize(count, value)`: when growing, `auto_reserve_`
then `std::fill(m_data + m_size, m_data + count, value)`; the fill writes
past the end of the allocation when `count` still exceeds `m_reserved`
(heap overflow, modelled as `none`); finally `m_size = count`. -/
def resizeFill (g : List Nat) (count : Nat) (fill : Nat) (c : Col) : Option Col :=
  if c.msize < count then
    match autoReserveAux g count c with
    | none => none
    | some c2 =>
      if count ≤ c2.mreserved then
        some ⟨c2.dataNull,
              c2.data.take c.msize ++ List.replicate (count - c.msize) fill
                ++ c2.data.drop count,
              count, c2.mreserved⟩
      else none
  else some ⟨c.dataNull, c.data, count, c.mreserved⟩

/-- Model of `data_column::resize(count)`: fill with `null_value()`. -/
def resize (g : List Nat) (count : Nat) (c : Col) : Option Col :=
  resizeFill g count null_value c

/-- Model of `data_column::reserve(count)`: delegates to `reserve_`. -/
def reserve (g : List Nat) (count : Nat) (c : Col) : Col :=
  reserveAux g count c

/-- Model of `data_column::at(pos)`: throw `std::out_of_range` (modelled as `none`)
when `pos >= m_size`, else return `m_data[pos]`. -/
def atIdx (c : Col) (pos : Nat) : Option Nat :=
  if c.msize ≤ pos then none else some (c.data.getD pos null_value)

/-- The unchecked `data_column::operator[]`. -/
def opIndex (c : Col) (pos : Nat) : Nat := c.data.getD pos null_value

/-- A public mutating call on the column, with the uninitialised contents
any allocation it performs would see. -/
inductive ColOp
  | res (g : List Nat) (n : Nat)
  | rsz (g : List Nat) (n : Nat) (fill : Nat)

/-- Run one public call. -/
def runOp (c : Col) : ColOp → Option Col
  | .res g n => some (reserve g n c)
  | .rsz g n f => resizeFill g n f c

/-- Run a sequence of public calls, stopping at undefined behaviour. -/
def runOps (c : Col) : List ColOp → Option Col
  | [] => some c
  | op :: t =>
    match runOp c op with
    | none => none
    | some c2 => runOps c2 t

/-- External memory holding one length-prefixed string: a length word of 2
at address 0, the bytes of the string at addresses 8 and 9. -/
def memW : Nat → Nat := fun a =>
  if a = 0 then 2 else if a = 8 then 104 else if a = 9 then 105 else 0

/-- A small well-formed column used to instantiate theorems. -/
def colW : Col := ⟨false, [5, 6, 7], 3, 3⟩

lemma and_ssoMask_eq_mod (m : Nat) : m &&& ssoMask = m % 8 := by
  have h := Nat.and_pow_two_sub_one_eq_mod m 3
  norm_num at h
  simpa [ssoMask] using h

lemma byte_zero_add (k x : Nat) (hk : k < 256) : byte 0 (k + 256 * x) = k := by
  simp only [byte]
  omega

lemma byte_succ_add (j k x : Nat) (hk : k < 256) :
    byte (j + 1) (k + 256 * x) = byte j x := by
  have h : (k + 256 * x) / 256 = x := by omega
  simp only [byte, h]

lemma byte_ssoBody (s : List Nat) (hb : ∀ b ∈ s, b < 256) (j : Nat)
    (hj : j < s.length) : byte j (ssoBody s) = s.getD j 0 := by
  induction s generalizing j with
  | nil => simp at hj
  | cons b t ih =>
    match j with
    | 0 =>
      simpa [ssoBody] using byte_zero_add b (ssoBody t) (hb b (by simp))
    | j' + 1 =>
      have h1 : byte (j' + 1) (ssoBody (b :: t)) = byte j' (ssoBody t) := by
        simpa [ssoBody] using byte_succ_add j' b (ssoBody t) (hb b (by simp))
      rw [h1, ih (fun x hx => hb x (by simp [hx])) j' (by simpa using hj)]
      simp

lemma cellInt_intToCell (v : Int) (h1 : -(2^63) ≤ v) (h2 : v < 2^63) :
    cellInt (intToCell v) = v := by
  rcases le_or_lt 0 v with hv | hv
  · have hmod : v % 2^64 = v := by omega
    have ht : ((v.toNat : Nat) : Int) = v := Int.toNat_of_nonneg hv
    unfold cellInt intToCell
    rw [hmod]
    split_ifs with h
    · exact ht
    · exfalso
      apply h
      have h3 : ((v.toNat : Nat) : Int) < 2^63 := by rw [ht]; exact h2
      exact_mod_cast h3
  · have hmod : v % 2^64 = v + 2^64 := by omega
    have ht : (((v + 2^64).toNat : Nat) : Int) = v + 2^64 :=
      Int.toNat_of_nonneg (by omega)
    unfold cellInt intToCell
    rw [hmod]
    split_ifs with h
    · exfalso
      have h3 : (((v + 2^64).toNat : Nat) : Int) < 2^63 := by exact_mod_cast h
      rw [ht] at h3
      omega
    · rw [ht]
      omega

lemma reserveAux_mres_mono (g : List Nat) (n : Nat) (c : Col) :
    c.mreserved ≤ (reserveAux g n c).mreserved := by
  unfold reserveAux
  split_ifs with h
  · simpa using Nat.le_of_lt h
  · exact Nat.le_refl _

lemma autoReserveAux_mres_mono (g : List Nat) (n : Nat) (c c2 : Col)
    (h : autoReserveAux g n c = some c2) : c.mreserved ≤ c2.mreserved := by
  unfold autoReserveAux at h
  split_ifs at h with h1 h2
  · rw [Option.some_inj] at h
    rw [← h]
    exact reserveAux_mres_mono _ _ _
  · rw [Option.some_inj] at h
    rw [← h]

lemma resizeFill_mres_mono (g : List Nat) (n : Nat) (f : Nat) (c c2 : Col)
    (h : resizeFill g n f c = some c2) : c.mreserved ≤ c2.mreserved := by
  unfold resizeFill at h
  split_ifs at h with h1
  · cases har : autoReserveAux g n c with
    | none => rw [har] at h; simp at h
    | some c3 =>
      rw [har] at h
      simp only at h
      split_ifs at h with h2
      rw [Option.some_inj] at h
      have hm := autoReserveAux_mres_mono g n c c3 har
      rw [← h]
      exact hm
  · rw [Option.some_inj] at h
    rw [← h]

lemma runOp_mres_mono (op : ColOp) (c c2 : Col) (h : runOp c op = some c2) :
    c.mreserved ≤ c2.mreserved := by
  cases op with
  | res g n =>
    simp only [runOp, reserve, Option.some_inj] at h
    rw [← h]
    exact reserveAux_mres_mono _ _ _
  | rsz g n f =>
    exact resizeFill_mres_mono g n f c c2 h

lemma runOps_mres_mono (ops : List ColOp) : ∀ c c2 : Col,
    runOps c ops = some c2 → c.mreserved ≤ c2.mreserved := by
  induction ops with
  | nil =>
    intro c c2 h
    simp only [runOps, Option.some_inj] at h
    rw [h]
  | cons op t ih =>
    intro c c2 h
    unfold runOps at h
    cases hop : runOp c op with
    | none => rw [hop] at h; simp at h
    | some c3 =>
      rw [hop] at h
      exact Nat.le_trans (runOp_mres_mono op c c3 hop) (ih c3 c2 h)

/-- C1 (counterexample): projecting the all-zero cell `null_value()` with
kind INT does not give the null variant; it gives the integer 0, because
`is_int_null` compares against `int64_min`, not 0. -/
theorem C1_counterexample :
    to_varient memZero null_value Kind.INT = Variant.int 0
    ∧ to_varient memZero null_value Kind.INT ≠ Variant.null := by
  constructor
  · decide
  · decide

/-- C1 (amended): `to_variant(null_cell(), STRING)` is the null variant,
but the INT and FLOAT projections of the canonical null cell are not null:
they are the integer 0 and the double with bit pattern 0 (that is, +0.0),
since the per-kind null sentinels are `int64_min` and `double.lowest`.
The external memory is irrelevant for the null cell, so the statement is
at the all-zero memory. -/
theorem C1_null_cell_projections :
    to_varient memZero null_value Kind.STRING = Variant.null
    ∧ to_varient memZero null_value Kind.INT = Variant.int 0
    ∧ to_varient memZero null_value Kind.FLOAT = Variant.floatBits 0 := by
  refine ⟨rfl, rfl, rfl⟩

/-- C2 (code evaluation at the failing input): on an empty column,
`auto_reserve_(100)` computes `shift = min(bit_width(100) - 2, 3) = 3` and
reserves only `0 + 2^3 = 8` cells — not `0 + 2^max(3, 5) = 32`, and far
short of 100 — because the code uses `std::min` where its own comment
(minimum shift size of 8) demands `std::max`; and `auto_reserve_(1)`
computes the negative shift amount `min(bit_width(1) - 2, 3) = -1`, an
undefined left shift. -/
theorem C2_growth_eval :
    autoReserveAux (List.replicate 8 null_value) 100 emptyCol
      = some ⟨false, List.replicate 8 null_value, 0, 8⟩
    ∧ autoReserveAux (List.replicate 8 null_value) 1 emptyCol = none := by
  constructor
  · decide
  · decide

/-- C3 (code evaluation at the failing input): growing an empty column with
`resize(100)` under-reserves (8 cells, see `C2_growth_eval`) and then
`std::fill` writes 100 cells into the 8-cell buffer — a heap overflow,
modelled as `none`; `resize(1)` stops at the undefined negative shift. -/
theorem C3_resize_eval :
    resize (List.replicate 8 null_value) 100 emptyCol = none
    ∧ resize (List.replicate 8 null_value) 1 emptyCol = none := by
  constructor
  · decide
  · decide

/-- C10 (code evaluation at the failing input): growing a fresh column that
has never allocated (`m_data == nullptr`, `m_reserved == 0`) makes
`reserve_` call `dealloc_(nullptr, 0)` — a null pointer with count 0 —
violating the claim (and the `assert(count > 0)` inside `dealloc_`); the
destructor of the fresh column, by contrast, performs no dealloc call. -/
theorem C10_dealloc_eval :
    reserveDeallocCalls 8 emptyCol = [(true, 0)]
    ∧ ¬(∀ call ∈ reserveDeallocCalls 8 emptyCol, 0 < call.2)
    ∧ destructorDeallocCounts emptyCol = [] := by
  refine ⟨by decide, by decide, by decide⟩

/-- C5: for every 64-bit `v` other than `int64_min`,
`to_variant(from_int(v), INT)` is the int variant of `v`;
`to_variant(from_int(), INT)` and `to_variant(from_int(int64_min), INT)`
are null; and `is_int_null(from_int(v))` holds exactly when `v` is
`int64_min` (with `is_int_null(from_int())` always true). -/
theorem C5_int_round_trip (mem : Nat → Nat) (v : Int)
    (h1 : -(2^63) ≤ v) (h2 : v < 2^63) :
    (v ≠ int64Min → to_varient mem (from_int (some v)) Kind.INT = Variant.int v)
    ∧ to_varient mem (from_int none) Kind.INT = Variant.null
    ∧ to_varient mem (from_int (some int64Min)) Kind.INT = Variant.null
    ∧ (is_int_null (from_int (some v)) = true ↔ v = int64Min)
    ∧ is_int_null (from_int none) = true := by
  have hkey : cellInt (intToCell v) = v := cellInt_intToCell v h1 h2
  have hmin : cellInt (intToCell int64Min) = int64Min :=
    cellInt_intToCell int64Min (by norm_num [int64Min]) (by norm_num [int64Min])
  have hfv : from_int (some v) = intToCell v := rfl
  have hfn : from_int none = intToCell int64Min := rfl
  have hmintrue : is_int_null (intToCell int64Min) = true := by
    simp [is_int_null, hmin]
  have hisv : is_int_null (from_int (some v)) = true ↔ v = int64Min := by
    rw [hfv]
    simp [is_int_null, hkey]
  have hismin : is_int_null (from_int none) = true := by
    rw [hfn]
    exact hmintrue
  refine ⟨?_, ?_, ?_, hisv, hismin⟩
  · intro hv
    have hfalse : is_int_null (intToCell v) = false := by
      simp [is_int_null, hkey]
      exact hv
    rw [hfv]
    simp [to_varient, hfalse, hkey]
  · rw [hfn]
    simp [to_varient, hmintrue]
  · have h3 : from_int (some int64Min) = intToCell int64Min := rfl
    rw [h3]
    simp [to_varient, hmintrue]

/-- C5 witness at concrete inputs. -/
theorem C5_witness :
    to_varient memZero (from_int (some 42)) Kind.INT = Variant.int 42
    ∧ is_int_null (from_int none) = true := by
  have h := C5_int_round_trip memZero 42 (by norm_num) (by norm_num)
  exact ⟨h.1 (by norm_num [int64Min]), h.2.2.2.2⟩

/-- C8: the bounds-checked accessor `at(pos)` raises out-of-range (`none`)
exactly when `pos ≥ size`; otherwise it returns the cell `m_data[pos]`
(the same cell the unchecked `operator[]` yields), and under the column
invariant that access lies inside the allocated buffer. -/
theorem C8_at_bounds (c : Col) (pos : Nat) (hWF : c.WF) :
    (atIdx c pos = none ↔ c.msize ≤ pos)
    ∧ (pos < c.msize →
        atIdx c pos = some (opIndex c pos) ∧ pos < c.data.length) := by
  constructor
  · constructor
    · intro h
      by_contra hlt
      push_neg at hlt
      unfold atIdx at h
      rw [if_neg (by omega)] at h
      simp at h
    · intro h
      unfold atIdx
      rw [if_pos h]
  · intro h
    refine ⟨?_, ?_⟩
    · unfold atIdx opIndex
      rw [if_neg (by omega)]
    · have hle := hWF.1
      have hlen := hWF.2
      omega

/-- C8 witness at a concrete column and position. -/
theorem C8_at_witness :
    atIdx colW 1 = some (opIndex colW 1) ∧ 1 < colW.data.length := by
  have hwf : colW.WF := by
    constructor
    · decide
    · decide
  exact (C8_at_bounds colW 1 hwf).2 (by decide)

/-- C9: `is_string_null` holds exactly when the pointer overlay is null
and the SSO tag bits are zero (a null pointer forces zero tag bits, so the
source's pointer-only test is equivalent); and no cell built by
`try_from_string` from 1..6 bytes is reported string-null. -/
theorem C9_string_null_iff (c : Nat) :
    (is_string_null c = true ↔ c = 0 ∧ byte 0 c &&& ssoMask = 0)
    ∧ (∀ s : List Nat, 1 ≤ s.length → s.length ≤ 6 →
        is_string_null (try_from_string s) = false) := by
  constructor
  · simp only [is_string_null, beq_iff_eq]
    constructor
    · intro h
      subst h
      exact ⟨rfl, by decide⟩
    · intro h
      exact h.1
  · intro s hs1 hs6
    unfold try_from_string
    rw [if_neg (by omega)]
    simp only [is_string_null]
    rw [beq_eq_false_iff_ne]
    intro hc
    omega

/-- C9 witness at concrete inputs. -/
theorem C9_witness :
    is_string_null (try_from_string [104, 105]) = false
    ∧ (is_string_null 0 = true ↔ (0 : Nat) = 0 ∧ byte 0 0 &&& ssoMask = 0) :=
  ⟨(C9_string_null_iff 0).2 [104, 105] (by decide) (by decide),
   (C9_string_null_iff 0).1⟩

/-- C6: for every 8-byte-aligned nonzero pointer `p` preceded by a length
word, `get_string_view(try_from_char(p))` is exactly the stored bytes
`mem[p], …, mem[p + length - 1]` where `length` is the machine word at
`p - 8`; and the cell whose tag bits are zero and whose pointer is null
projects to the empty view. -/
theorem C6_long_string_round_trip (mem : Nat → Nat) (p : Nat)
    (hal : p % 8 = 0) (hp : 8 ≤ p) (hlt : p < 2^64) :
    get_string_ptr mem (try_from_char p)
      = (List.range (readWord mem (p - 8))).map (fun j => mem (p + j))
    ∧ get_string_ptr mem (try_from_char 0) = [] := by
  constructor
  · have hb : byte 0 p = p % 256 := rfl
    have htag : byte 0 p &&& ssoMask = 0 := by
      rw [hb, and_ssoMask_eq_mod]
      omega
    unfold get_string_ptr try_from_char
    rw [if_neg (by simp [htag]), if_neg (by omega)]
  · rfl

/-- C6 witness: a length word of 2 at address 0 and bytes 104, 105 at
addresses 8, 9 round-trip through `try_from_char` at pointer 8. -/
theorem C6_witness :
    get_string_ptr memW (try_from_char 8) = [104, 105] := by
  have h := (C6_long_string_round_trip memW 8 (by decide) (by decide)
    (by norm_num)).1
  rw [h]
  rfl

/-- C7: `reserve(n)` ensures `reserved ≥ n` and never decreases
`reserved`; it leaves `size` unchanged; when `n > reserved` it installs a
buffer of exactly `n` cells holding the first `size` old cells (and frees
the old buffer, one `dealloc_` call with the old `reserved` count); when
`n ≤ reserved` it changes nothing; and over any sequence of `reserve` and
`resize` calls `reserved` never decreases. -/
theorem C7_reserve_spec (c : Col) (g : List Nat) (n : Nat)
    (hWF : c.WF) (hg : g.length = n) :
    n ≤ (reserve g n c).mreserved
    ∧ c.mreserved ≤ (reserve g n c).mreserved
    ∧ (reserve g n c).msize = c.msize
    ∧ (c.mreserved < n →
        (reserve g n c).mreserved = n
        ∧ (reserve g n c).data.length = n
        ∧ (∀ i, i < c.msize →
            (reserve g n c).data.getD i null_value = c.data.getD i null_value)
        ∧ reserveDeallocCounts n c = [c.mreserved])
    ∧ (n ≤ c.mreserved → reserve g n c = c)
    ∧ (∀ ops c2, runOps c ops = some c2 → c.mreserved ≤ c2.mreserved) := by
  obtain ⟨hsz, hlen⟩ := hWF
  refine ⟨?_, reserveAux_mres_mono g n c, ?_, ?_, ?_, ?_⟩
  · unfold reserve reserveAux
    split_ifs with h
    · simp
    · omega
  · unfold reserve reserveAux
    split_ifs with h <;> rfl
  · intro h
    unfold reserve reserveAux
    rw [if_pos h]
    refine ⟨rfl, ?_, ?_, ?_⟩
    · simp [List.length_take, List.length_drop, hlen, hg]
      omega
    · intro i hi
      simp only
      rw [List.getD_eq_getElem?_getD, List.getD_eq_getElem?_getD]
      rw [List.getElem?_append_left (by simp [List.length_take]; omega)]
      rw [List.getElem?_take_of_lt hi]
    · unfold reserveDeallocCounts
      rw [if_pos h]
  · intro h
    unfold reserve reserveAux
    rw [if_neg (by omega)]
  · intro ops c2 h
    exact runOps_mres_mono ops c c2 h

/-- C7 witness: reserving 3 cells on a fresh column. -/
theorem C7_witness :
    3 ≤ (reserve (List.replicate 3 null_value) 3 emptyCol).mreserved
    ∧ (reserve (List.replicate 3 null_value) 3 emptyCol).msize
        = emptyCol.msize := by
  have h := C7_reserve_spec emptyCol (List.replicate 3 null_value) 3
    (show emptyCol.WF from ⟨by decide, by decide⟩) (by decide)
  exact ⟨h.1, h.2.2.1⟩

/-- C4: for 1..6 bytes, `to_variant(try_from_string(s), STRING)` is the
string view of `s` (SSO round trip); the empty byte sequence and every
sequence longer than 6 give the null cell, whose STRING projection is the
null variant. -/
theorem C4_sso_round_trip (mem : Nat → Nat) (s : List Nat)
    (hb : ∀ b ∈ s, b < 256) :
    (1 ≤ s.length → s.length ≤ 6 →
      to_varient mem (try_from_string s) Kind.STRING = Variant.str s)
    ∧ ((s.length = 0 ∨ 6 < s.length) →
      try_from_string s = null_value
      ∧ to_varient mem (try_from_string s) Kind.STRING = Variant.null) := by
  constructor
  · intro h1 h6
    have hcell : try_from_string s = s.length + 256 * ssoBody s := by
      unfold try_from_string
      rw [if_neg (by omega)]
    have htag : byte 0 (try_from_string s) = s.length := by
      rw [hcell]
      exact byte_zero_add s.length (ssoBody s) (by omega)
    have htagand : byte 0 (try_from_string s) &&& ssoMask = s.length := by
      rw [htag, and_ssoMask_eq_mod]
      omega
    have hnn : is_string_null (try_from_string s) = false := by
      rw [hcell]
      simp only [is_string_null]
      rw [beq_eq_false_iff_ne]
      intro hc
      omega
    simp only [to_varient]
    rw [if_neg (by simp [hnn])]
    unfold get_string_ptr
    rw [if_pos (by rw [htagand]; omega)]
    rw [htag]
    congr 1
    apply List.ext_getElem
    · simp
    · intro i hi1 hi2
      simp only [List.getElem_map, List.getElem_range]
      rw [hcell, byte_succ_add i s.length (ssoBody s) (by omega),
          byte_ssoBody s hb i (by simpa using hi2)]
      rw [List.getD_eq_getElem?_getD, List.getElem?_eq_getElem hi2]
      rfl
  · intro h0
    have hc : try_from_string s = null_value := by
      unfold try_from_string
      rw [if_pos h0]
    refine ⟨hc, ?_⟩
    rw [hc]
    rfl

/-- C4 witness at the byte sequences of a two-byte string and the empty
string. -/
theorem C4_witness :
    to_varient memZero (try_from_string [104, 105]) Kind.STRING
      = Variant.str [104, 105]
    ∧ try_from_string [] = null_value := by
  have h := C4_sso_round_trip memZero [104, 105] (by decide)
  have h2 := C4_sso_round_trip memZero [] (by decide)
  exact ⟨h.1 (by decide) (by decide), (h2.2 (by decide)).1⟩

end Warthog
